import Mathlib

/-!
Verification of `src/pydriller/avg_churn.py`.

Shallow embedding conventions:
* `datetime` values are modelled by `Date` (year / month / day); the script
  compares datetimes lexicographically, which `Date.lt` mirrors.
* `relativedelta` steps are month counts (`Nat`): every step the script ever
  builds is `relativedelta(months=k)`, and `addMonths` mirrors dateutil's
  normalisation (year carry, day clamped to the target month's length).
* numpy / multiprocessing calls are embedded by pure functions whose
  behaviour matches the library semantics the script relies on
  (`np.array_split`, `pool.map`); exceptions become `Except` errors.
* floats (`np.mean`) are modelled exactly in `ℚ`.
-/

namespace AvgChurn

/-- A calendar date, mirroring the `datetime` values used by the script.
The month is stored 0-based (`Fin 12`), so `mkDate` subtracts 1 from the
1-based month used by `datetime(y, m, d)`. -/
structure Date where
  year : Nat
  month : Fin 12
  day : Nat
deriving DecidableEq

/-- Constructor mirroring `datetime(y, m, d)` with a 1-based month. -/
def mkDate (y m d : Nat) : Date :=
  ⟨y, ⟨(m - 1) % 12, Nat.mod_lt _ (by decide)⟩, d⟩

/-- Lexicographic comparison of dates, exactly as Python compares
`datetime` objects. -/
def Date.lt (a b : Date) : Prop :=
  a.year < b.year ∨
    (a.year = b.year ∧
      (a.month.val < b.month.val ∨ (a.month.val = b.month.val ∧ a.day < b.day)))

instance : LT Date := ⟨Date.lt⟩

instance (a b : Date) : Decidable (a < b) :=
  inferInstanceAs (Decidable (a.year < b.year ∨
    (a.year = b.year ∧
      (a.month.val < b.month.val ∨ (a.month.val = b.month.val ∧ a.day < b.day)))))

/-- Number of days in a month (1-based month), with leap years; this is
Python's `calendar.monthrange(y, m)[1]`, used by dateutil to clamp days. -/
def isLeap (y : Nat) : Bool :=
  (y % 4 == 0 && y % 100 != 0) || (y % 400 == 0)

def daysInMonth (y m : Nat) : Nat :=
  if m = 2 then (if isLeap y then 29 else 28)
  else if m = 4 ∨ m = 6 ∨ m = 9 ∨ m = 11 then 30
  else 31

/-- Addition `d + relativedelta(months=k)`: dateutil normalises the month
with a year carry and clamps the day to the length of the resulting month. -/
def addMonths (d : Date) (k : Nat) : Date :=
  ⟨d.year + (d.month.val + k) / 12,
   ⟨(d.month.val + k) % 12, Nat.mod_lt _ (by decide)⟩,
   min d.day (daysInMonth (d.year + (d.month.val + k) / 12) ((d.month.val + k) % 12 + 1))⟩

/-- Linearisation of the (year, month) part of a date. -/
def monthIndex (d : Date) : Nat := d.year * 12 + d.month.val

-- Constants for date range (lines 18-19 of the source).
def GLOBAL_START_DATE : Date := mkDate 2019 10 1
def GLOBAL_END_DATE : Date := mkDate 2025 2 1

/-- Body of the `while startDate < endDate` loop of `createMonthList`
(lines 24-29).  The `fuel` argument is a structural-recursion bound; it is
chosen by `createMonthList` large enough that, for a positive step, the
branch taken always agrees with the Python loop (see `createMonthList_degenerate`
and the fuel-sufficiency arguments in the lemmas below). -/
def createMonthListAux (stepSize : Nat) (endDate : Date) : Nat → Date → List Date
  | 0, _ => [endDate]
  | Nat.succ fuel, startDate =>
    if startDate < endDate then
      startDate :: createMonthListAux stepSize endDate fuel (addMonths startDate stepSize)
    else [endDate]

/-- Function `createMonthList(startDate, endDate, stepSize)` (lines 23-29):
collects `startDate, startDate+step, ...` while below `endDate`, then
appends `endDate`. -/
def createMonthList (startDate endDate : Date) (stepSize : Nat) : List Date :=
  createMonthListAux stepSize endDate
    (monthIndex endDate + 1 - monthIndex startDate) startDate

/-- The comprehension `[(monthList[i], monthList[i+1]) for i in range(len(monthList)-1)]`
of line 47, as the list of consecutive pairs. -/
def consecPairs {α : Type} : List α → List (α × α)
  | a :: b :: rest => (a, b) :: consecPairs (b :: rest)
  | _ => []

/-- Loop of `get_new_temp_dir` (lines 33-37): starting from version `v`,
count up while the probed path exists.  The `fuel` argument bounds the
structural recursion; the theorems supply a version whose path does not
exist, which makes the bound sufficient and the 0-fuel branch unreachable
(without such a version the Python loop would not terminate either). -/
def findFreeFrom (path_exists_v : Nat → Bool) : Nat → Nat → Nat
  | 0, v => v
  | Nat.succ fuel, v =>
    if path_exists_v v then findFreeFrom path_exists_v fuel (v + 1) else v

/-- Function `get_new_temp_dir(base_dir)` (lines 32-39): returns
`f"{base_dir}_v{version}"` for the first version, counting up from 0, whose
path does not exist.  The filesystem is abstracted as the `path_exists`
predicate; the final `os.mkdir` side effect is not modelled. -/
def get_new_temp_dir (path_exists : String → Bool) (base_dir : String) (bound : Nat) :
    String :=
  base_dir ++ "_v" ++ toString
    (findFreeFrom (fun v => path_exists (base_dir ++ "_v" ++ toString v)) (bound + 1) 0)

/-- One element of the `jobList` built by `createJobsByTimeDelta` (lines 50-54). -/
structure Job where
  id : Nat
  dateRanges : List (Date × Date)
  directory : String
deriving DecidableEq

/-- Exceptions raised by the modelled fragment of the script. -/
inductive RunError where
  | assertRepoPath
  | assertCapacity
  | valueErrorSections
deriving DecidableEq

/-- Chunk sizes produced by `np.array_split`: a length-`l` sequence split
into `n` sections gives `l % n` chunks of size `l / n + 1` followed by
`n - l % n` chunks of size `l / n`. -/
def splitSizes (l n : Nat) : List Nat :=
  List.replicate (l % n) (l / n + 1) ++ List.replicate (n - l % n) (l / n)

def takeChunks {α : Type} : List Nat → List α → List (List α)
  | [], _ => []
  | s :: ss, xs => xs.take s :: takeChunks ss (xs.drop s)

/-- Call `np.array_split(xs, n)` (line 49): raises `ValueError` for zero
sections, otherwise yields `n` contiguous chunks with sizes `splitSizes`. -/
def array_split {α : Type} (xs : List α) (n : Nat) : Except RunError (List (List α)) :=
  if n = 0 then Except.error RunError.valueErrorSections
  else Except.ok (takeChunks (splitSizes xs.length n) xs)

/-- The job-building loop of `createJobsByTimeDelta` (lines 48-55):
`for i, dateRanges in zip(range(len(directories)), np.array_split(monthPairs, len(directories)))`. -/
def partitionJobs (monthPairs : List (Date × Date)) (directories : List String) :
    Except RunError (List Job) :=
  (array_split monthPairs directories.length).map (fun chunks =>
    ((List.range directories.length).zip chunks).map (fun p =>
      ⟨p.1, p.2, directories.getD p.1 ("")⟩))

/-- Function `createJobsByTimeDelta(repoPath, timeDelta, directories)`
(lines 43-55).  The `assert os.path.exists(repoPath)` of line 44 is
modelled through the abstract `path_exists` predicate; the month pairs come
only from the module-level globals and the step. -/
def createJobsByTimeDelta (path_exists : String → Bool) (repoPath : String)
    (timeDelta : Nat) (directories : List String) : Except RunError (List Job) :=
  if path_exists repoPath then
    partitionJobs
      (consecPairs (createMonthList GLOBAL_START_DATE GLOBAL_END_DATE timeDelta))
      directories
  else Except.error RunError.assertRepoPath

/-- Function `createMultipleRepos` (lines 108-114): builds the per-worker
snapshot directory names (the `shutil.copytree` side effect is not
modelled). -/
def createMultipleRepos (tempDir : String) (numCopies : Nat) : List String :=
  (List.range numCopies).map (fun i => tempDir ++ "/tempDir_" ++ toString i ++ "/.git")

/-- Control-flow model of `codeChurnPerDelta` (lines 88-104) up to job
creation.  The returned `Bool` records whether provisioning
(`get_new_temp_dir` and `createMultipleRepos`, lines 91-92) was reached;
the `assert numDirectories <= mp.cpu_count() - 1` of line 89 runs before
it.  `numDirectories.toNat` reflects `range(numCopies)` being empty for a
non-positive count. -/
def codeChurnPerDelta (path_exists : String → Bool) (repoPath : String)
    (numDirectories cpuCount : Int) (timeDelta : Nat) (tempDir : String) :
    Bool × Except RunError (List Job) :=
  if numDirectories ≤ cpuCount - 1 then
    (true, createJobsByTimeDelta path_exists repoPath timeDelta
      (createMultipleRepos tempDir numDirectories.toNat))
  else (false, Except.error RunError.assertCapacity)

/-- A commit as exposed by the pydriller history reader (insertion and
deletion counts are non-negative). -/
structure Commit where
  insertions : Nat
  deletions : Nat
deriving DecidableEq

/-- The per-interval record `temp` built by `codeChurnJob` (lines 69-81). -/
structure IntervalResult where
  id : Nat
  repoPath : String
  startDate : Date
  endDate : Date
  insertions : Nat
  deletions : Nat
  churn : Nat
deriving DecidableEq

/-- Function `codeChurnJob(job)` (lines 63-83), with the pydriller
`Repository(path, since, to).traverse_commits()` call abstracted into
`reader`: per interval, sum the insertions and deletions of the commits in
the window and set `churn` to their sum. -/
def codeChurnJob (reader : String → Date → Date → List Commit) (job : Job) :
    Nat × String × List IntervalResult :=
  (job.id, job.directory,
    job.dateRanges.map (fun p =>
      ⟨job.id, job.directory, p.1, p.2,
        ((reader job.directory p.1 p.2).map Commit.insertions).sum,
        ((reader job.directory p.1 p.2).map Commit.deletions).sum,
        ((reader job.directory p.1 p.2).map Commit.insertions).sum +
          ((reader job.directory p.1 p.2).map Commit.deletions).sum⟩))

/-- Variant of `codeChurnJob` for a history reader whose window reads can
fail: a Python exception raised inside the `for` loop of lines 68-82 aborts
the whole worker function, so no earlier per-interval record survives. -/
def codeChurnJobE (readerE : String → Date → Date → Except String (List Commit))
    (job : Job) : Except String (Nat × String × List IntervalResult) :=
  (job.dateRanges.mapM (fun p =>
    (readerE job.directory p.1 p.2).map (fun commits =>
      (⟨job.id, job.directory, p.1, p.2,
        (commits.map Commit.insertions).sum,
        (commits.map Commit.deletions).sum,
        (commits.map Commit.insertions).sum + (commits.map Commit.deletions).sum⟩ :
        IntervalResult)))).map
    (fun finishedJobs => (job.id, job.directory, finishedJobs))

/-- Call `pool.map(codeChurnJob, jobs)` (line 99): waits for all tasks, but
if any task raised, the call re-raises a single exception and returns no
results at all. -/
def poolMapJobs (readerE : String → Date → Date → Except String (List Commit))
    (jobs : List Job) : Except String (List (Nat × String × List IntervalResult)) :=
  jobs.mapM (codeChurnJobE readerE)

/-- Expression `item["startDate"].strftime("%Y-%m")` (line 194): the
calendar month of a date.  The string key `"YYYY-MM"` is encoded as
`year * 12 + month`; for the four-digit years in scope, equality and
lexicographic order of the key strings coincide with equality and order of
this number. -/
def monthKey (d : Date) : Nat := d.year * 12 + d.month.val

/-- The aggregation of `__main__` (lines 192-199): group every result by
the calendar month of its `startDate` (`combined_data`, built jointly over
all repositories and workers), sort the month keys (`sorted(...)`), and
take the arithmetic mean of the churn values of each month (`np.mean`,
modelled exactly in `ℚ`). -/
def aggregate (allResults : List IntervalResult) : List (Nat × ℚ) :=
  (List.insertionSort (· ≤ ·)
      ((allResults.map (fun r => monthKey r.startDate)).dedup)).map
    (fun month =>
      (month,
        (((allResults.filter (fun r => decide (monthKey r.startDate = month))).map
          (fun r => (r.churn : ℚ))).sum) /
        (((allResults.filter (fun r => decide (monthKey r.startDate = month))).length : ℚ))))

/-- The before/after-threshold summary of `__main__` (lines 201-220): split
the `(month, avg_churn)` series at the threshold month and average the two
parts, reporting 0 for an empty part. -/
def churnSummary (months : List Nat) (avg_churn : List ℚ) (threshold_date : Nat) :
    ℚ × ℚ :=
  (if ((months.zip avg_churn).filter (fun p => decide (p.1 < threshold_date))).length = 0
    then 0
    else (((months.zip avg_churn).filter
        (fun p => decide (p.1 < threshold_date))).map Prod.snd).sum /
      ((((months.zip avg_churn).filter
        (fun p => decide (p.1 < threshold_date))).length : ℚ)),
   if ((months.zip avg_churn).filter (fun p => !decide (p.1 < threshold_date))).length = 0
    then 0
    else (((months.zip avg_churn).filter
        (fun p => !decide (p.1 < threshold_date))).map Prod.snd).sum /
      ((((months.zip avg_churn).filter
        (fun p => !decide (p.1 < threshold_date))).length : ℚ)))

/-- Fixtures for the partial-failure analysis: two jobs on distinct
snapshot directories; worker 0's history window fails to read and worker 1
succeeds.  The two readers differ only in the commits they yield for
worker 1's snapshot. -/
def jobC3a : Job := ⟨0, [(mkDate 2020 1 1, mkDate 2020 2 1)], ("d0")⟩

def jobC3b : Job := ⟨1, [(mkDate 2020 1 1, mkDate 2020 2 1)], ("d1")⟩

def jobsC3 : List Job := [jobC3a, jobC3b]

def readerC3a (d : String) (_ _ : Date) : Except String (List Commit) :=
  if d = ("d0") then Except.error ("read failed") else Except.ok [⟨10, 2⟩]

def readerC3b (d : String) (_ _ : Date) : Except String (List Commit) :=
  if d = ("d0") then Except.error ("read failed") else Except.ok [⟨100, 50⟩]

/-- Fixture for the aggregation witness: one result in January 2020. -/
def resultsC1 : List IntervalResult :=
  [⟨0, ("p"), mkDate 2020 1 1, mkDate 2020 2 1, 10, 2, 12⟩]

/-- Fixture for the worker witness: one job with a single January 2020
interval. -/
def jobC5 : Job := ⟨0, [(mkDate 2020 1 1, mkDate 2020 2 1)], ("w0")⟩

theorem monthIndex_addMonths (d : Date) (k : Nat) :
    monthIndex (addMonths d k) = monthIndex d + k := by
  have h := Nat.div_add_mod (d.month.val + k) 12
  simp only [monthIndex, addMonths]
  omega

theorem lt_of_monthIndex_lt {a b : Date} (h : monthIndex a < monthIndex b) : a < b := by
  have ha := a.month.isLt
  have hb := b.month.isLt
  show Date.lt a b
  unfold Date.lt
  unfold monthIndex at h
  omega

theorem monthIndex_le_of_lt {a b : Date} (h : a < b) : monthIndex a ≤ monthIndex b := by
  have ha := a.month.isLt
  have hb := b.month.isLt
  have h' : Date.lt a b := h
  unfold Date.lt at h'
  unfold monthIndex
  omega

theorem lt_addMonths (d : Date) {k : Nat} (hk : 0 < k) : d < addMonths d k := by
  apply lt_of_monthIndex_lt
  rw [monthIndex_addMonths]
  omega

theorem createMonthListAux_succ (k : Nat) (e : Date) (fuel : Nat) (s : Date) :
    createMonthListAux k e (Nat.succ fuel) s =
      if s < e then s :: createMonthListAux k e fuel (addMonths s k) else [e] := rfl

theorem createMonthListAux_ne_nil (k : Nat) (e : Date) (fuel : Nat) (s : Date) :
    createMonthListAux k e fuel s ≠ [] := by
  cases fuel with
  | zero => simp [createMonthListAux]
  | succ fuel =>
    rw [createMonthListAux_succ]
    split <;> simp

theorem createMonthListAux_getLast? (k : Nat) (e : Date) :
    ∀ (fuel : Nat) (s : Date), (createMonthListAux k e fuel s).getLast? = some e := by
  intro fuel
  induction fuel with
  | zero => intro s; rfl
  | succ fuel ih =>
    intro s
    rw [createMonthListAux_succ]
    by_cases hse : s < e
    · rw [if_pos hse]
      rcases hr : createMonthListAux k e fuel (addMonths s k) with _ | ⟨b, t⟩
      · exact absurd hr (createMonthListAux_ne_nil k e fuel (addMonths s k))
      · rw [List.getLast?_cons_cons]
        rw [← hr]
        exact ih (addMonths s k)
    · rw [if_neg hse]
      rfl

theorem createMonthListAux_head? (k : Nat) (e : Date) (fuel : Nat) (s : Date) :
    (createMonthListAux k e fuel s).head? = some s ∨
      (createMonthListAux k e fuel s).head? = some e := by
  cases fuel with
  | zero => right; rfl
  | succ fuel =>
    rw [createMonthListAux_succ]
    by_cases hse : s < e
    · left; rw [if_pos hse]; rfl
    · right; rw [if_neg hse]; rfl

theorem createMonthListAux_chain (k : Nat) (e : Date) (hk : 0 < k) :
    ∀ (fuel : Nat) (s : Date), monthIndex e + 1 - monthIndex s ≤ fuel →
      List.Chain' (· < ·) (createMonthListAux k e fuel s) := by
  intro fuel
  induction fuel with
  | zero => intro s _; simp [createMonthListAux]
  | succ fuel ih =>
    intro s hgap
    rw [createMonthListAux_succ]
    by_cases hse : s < e
    · rw [if_pos hse]
      have hmi : monthIndex s ≤ monthIndex e := monthIndex_le_of_lt hse
      have hmi' : monthIndex (addMonths s k) = monthIndex s + k :=
        monthIndex_addMonths s k
      have hgap' : monthIndex e + 1 - monthIndex (addMonths s k) ≤ fuel := by omega
      rw [List.chain'_cons']
      refine ⟨?_, ih (addMonths s k) hgap'⟩
      intro y hy
    -- the head of the tail is either the next cursor or the end date
      rcases createMonthListAux_head? k e fuel (addMonths s k) with hc | hc
      · rw [hc] at hy
        simp only [Option.mem_def, Option.some.injEq] at hy
        rw [← hy]
        exact lt_addMonths s hk
      · rw [hc] at hy
        simp only [Option.mem_def, Option.some.injEq] at hy
        rw [← hy]
        exact hse
    · rw [if_neg hse]
      simp

theorem createMonthList_chain (s e : Date) (k : Nat) (hk : 0 < k) :
    List.Chain' (· < ·) (createMonthList s e k) :=
  createMonthListAux_chain k e hk _ s (Nat.le_refl _)

theorem createMonthList_ne_nil (s e : Date) (k : Nat) : createMonthList s e k ≠ [] :=
  createMonthListAux_ne_nil k e _ s

theorem createMonthList_getLast? (s e : Date) (k : Nat) :
    (createMonthList s e k).getLast? = some e :=
  createMonthListAux_getLast? k e _ s

theorem createMonthList_head? (s e : Date) (k : Nat) (hse : s < e) :
    (createMonthList s e k).head? = some s := by
  have hmi : monthIndex s ≤ monthIndex e := monthIndex_le_of_lt hse
  unfold createMonthList
  rcases hf : monthIndex e + 1 - monthIndex s with _ | fuel
  · omega
  · rw [createMonthListAux_succ, if_pos hse]
    rfl

theorem createMonthList_two_le (s e : Date) (k : Nat) (hse : s < e) :
    2 ≤ (createMonthList s e k).length := by
  have hmi : monthIndex s ≤ monthIndex e := monthIndex_le_of_lt hse
  unfold createMonthList
  rcases hf : monthIndex e + 1 - monthIndex s with _ | fuel
  · omega
  · rw [createMonthListAux_succ, if_pos hse]
    have hne := createMonthListAux_ne_nil k e fuel (addMonths s k)
    have hlen := List.length_pos.mpr hne
    simp only [List.length_cons]
    omega

/-- C6 amended behaviour: for `startDate >= endDate` the loop body never
runs and the function returns the single boundary `[endDate]`. -/
theorem createMonthList_of_not_lt (s e : Date) (k : Nat) (h : ¬ s < e) :
    createMonthList s e k = [e] := by
  unfold createMonthList
  rcases monthIndex e + 1 - monthIndex s with _ | fuel
  · rfl
  · rw [createMonthListAux_succ, if_neg h]

theorem consecPairs_nil {α : Type} : consecPairs ([] : List α) = [] := rfl

theorem consecPairs_single {α : Type} (a : α) : consecPairs [a] = [] := rfl

theorem consecPairs_cons_cons {α : Type} (a b : α) (l : List α) :
    consecPairs (a :: b :: l) = (a, b) :: consecPairs (b :: l) := rfl

theorem consecPairs_rel {α : Type} {R : α → α → Prop} :
    ∀ (l : List α), List.Chain' R l → ∀ p ∈ consecPairs l, R p.1 p.2 := by
  intro l
  induction l with
  | nil => intro _ p hp; simp [consecPairs_nil] at hp
  | cons a t ih =>
    cases t with
    | nil => intro _ p hp; simp [consecPairs_single] at hp
    | cons b u =>
      intro hch p hp
      rw [List.chain'_cons] at hch
      rw [consecPairs_cons_cons] at hp
      rcases List.mem_cons.mp hp with h | h
      · rw [h]; exact hch.1
      · exact ih hch.2 p h

theorem consecPairs_ne_nil {α : Type} (l : List α) (h : 2 ≤ l.length) :
    consecPairs l ≠ [] := by
  cases l with
  | nil => simp at h
  | cons a t =>
    cases t with
    | nil => simp at h
    | cons b u => rw [consecPairs_cons_cons]; simp

theorem consecPairs_head?_fst {α : Type} :
    ∀ (l : List α) (p : α × α) (ps : List (α × α)),
      consecPairs l = p :: ps → l.head? = some p.1 := by
  intro l p ps h
  cases l with
  | nil => simp [consecPairs_nil] at h
  | cons a t =>
    cases t with
    | nil => simp [consecPairs_single] at h
    | cons b u =>
      rw [consecPairs_cons_cons] at h
      have : (a, b) = p := (List.cons.injEq _ _ _ _ ▸ h).1
      rw [← this]
      rfl

theorem consecPairs_getLast?_snd {α : Type} :
    ∀ (l : List α) (p : α × α), (consecPairs l).getLast? = some p →
      l.getLast? = some p.2 := by
  intro l
  induction l with
  | nil => intro p h; simp [consecPairs_nil] at h
  | cons a t ih =>
    cases t with
    | nil => intro p h; simp [consecPairs_single] at h
    | cons b u =>
      intro p h
      rw [consecPairs_cons_cons] at h
      cases hu : consecPairs (b :: u) with
      | nil =>
        rw [hu, List.getLast?_singleton] at h
        have hp : (a, b) = p := Option.some_injective _ h
        cases u with
        | nil => rw [← hp]; rfl
        | cons c v => rw [consecPairs_cons_cons] at hu; simp at hu
      | cons q qs =>
        rw [hu, List.getLast?_cons_cons] at h
        rw [← hu] at h
        have := ih p h
        rw [List.getLast?_cons_cons]
        exact this

theorem consecPairs_get_contiguous {α : Type} :
    ∀ (l : List α) (i : Nat) (h1 : i + 1 < (consecPairs l).length)
      (h2 : i < (consecPairs l).length),
      ((consecPairs l).get ⟨i + 1, h1⟩).1 = ((consecPairs l).get ⟨i, h2⟩).2 := by
  intro l
  induction l with
  | nil => intro i h1 h2; simp [consecPairs_nil] at h1
  | cons a t ih =>
    cases t with
    | nil => intro i h1 h2; simp [consecPairs_single] at h1
    | cons b u =>
      intro i h1 h2
      cases i with
      | zero =>
        cases u with
        | nil =>
          simp [consecPairs_cons_cons, consecPairs_single] at h1
        | cons c v => rfl
      | succ j =>
        have h1' : j + 1 < (consecPairs (b :: u)).length := by
          have h := h1
          rw [consecPairs_cons_cons] at h
          simp only [List.length_cons] at h
          omega
        have h2' : j < (consecPairs (b :: u)).length := by
          have h := h2
          rw [consecPairs_cons_cons] at h
          simp only [List.length_cons] at h
          omega
        exact ih j h1' h2'

/-- C2: for `start < end` and a positive month step, the generated interval
sequence (consecutive pairs of `createMonthList` boundaries, line 47) is
non-empty, starts at `start`, ends exactly at `end`, every interval
satisfies `start < end`, and consecutive intervals abut. -/
theorem createMonthList_interval_properties (s e : Date) (k : Nat)
    (hk : 0 < k) (hse : s < e) :
    consecPairs (createMonthList s e k) ≠ [] ∧
    ((consecPairs (createMonthList s e k)).head?.map Prod.fst = some s) ∧
    ((consecPairs (createMonthList s e k)).getLast?.map Prod.snd = some e) ∧
    (∀ p ∈ consecPairs (createMonthList s e k), p.1 < p.2) ∧
    (∀ (i : Nat) (h1 : i + 1 < (consecPairs (createMonthList s e k)).length)
      (h2 : i < (consecPairs (createMonthList s e k)).length),
      ((consecPairs (createMonthList s e k)).get ⟨i + 1, h1⟩).1 =
        ((consecPairs (createMonthList s e k)).get ⟨i, h2⟩).2) := by
  have hne : consecPairs (createMonthList s e k) ≠ [] :=
    consecPairs_ne_nil _ (createMonthList_two_le s e k hse)
  refine ⟨hne, ?_, ?_, consecPairs_rel _ (createMonthList_chain s e k hk),
    consecPairs_get_contiguous _⟩
  · rcases hc : consecPairs (createMonthList s e k) with _ | ⟨p, ps⟩
    · exact absurd hc hne
    · have h1 := consecPairs_head?_fst (createMonthList s e k) p ps hc
      have h2 := createMonthList_head? s e k hse
      rw [h1] at h2
      have hps : p.1 = s := Option.some_injective _ h2
      simp [hps]
  · rcases hl : (consecPairs (createMonthList s e k)).getLast? with _ | p
    · rw [List.getLast?_eq_none_iff] at hl
      exact absurd hl hne
    · have h1 := consecPairs_getLast?_snd (createMonthList s e k) p hl
      have h2 := createMonthList_getLast? s e k
      rw [h1] at h2
      have hpe : p.2 = e := Option.some_injective _ h2
      simp [hpe]

/-- C2 witness: the month list from 2020-01-01 to 2020-03-15 with a 1-month
step (the example from the spec) has the stated interval properties. -/
theorem createMonthList_interval_properties_witness :
    (0 < 1 ∧ mkDate 2020 1 1 < mkDate 2020 3 15) ∧
    (∀ p ∈ consecPairs (createMonthList (mkDate 2020 1 1) (mkDate 2020 3 15) 1),
      p.1 < p.2) :=
  ⟨⟨by decide, by decide⟩,
    (createMonthList_interval_properties (mkDate 2020 1 1) (mkDate 2020 3 15) 1
      (by decide) (by decide)).2.2.2.1⟩

/-- Concrete check of the spec's own example: 2020-01-01 to 2020-03-15 with a
1-month step yields the boundaries 01-01, 02-01, 03-01, 03-15. -/
theorem createMonthList_example :
    createMonthList (mkDate 2020 1 1) (mkDate 2020 3 15) 1 =
      [mkDate 2020 1 1, mkDate 2020 2 1, mkDate 2020 3 1, mkDate 2020 3 15] := by
  decide

/-- C6 counterexample: for `globalStart >= globalEnd` (here the global
window reversed), `createMonthList` raises nothing and returns the single
boundary `[endDate]`; the derived interval sequence is empty and job
creation succeeds with an empty interval list, contradicting the claim
that such an input fails with `InvalidRange` and never yields a sequence. -/
theorem createMonthList_invalid_range_cx :
    createMonthList (mkDate 2025 2 1) (mkDate 2019 10 1) 1 = [mkDate 2019 10 1] ∧
    consecPairs (createMonthList (mkDate 2025 2 1) (mkDate 2019 10 1) 1) = [] ∧
    partitionJobs
        (consecPairs (createMonthList (mkDate 2025 2 1) (mkDate 2019 10 1) 1))
        [("d")] =
      Except.ok [(⟨0, [], ("d")⟩ : Job)] :=
  ⟨rfl, rfl, rfl⟩

/-- C6 amended: when `startDate >= endDate`, interval generation does not
fail; `createMonthList` returns the single boundary `[endDate]`, so the
derived interval sequence is empty (no `InvalidRange` error exists in the
code). -/
theorem createMonthList_degenerate_range (s e : Date) (k : Nat) (h : ¬ s < e) :
    createMonthList s e k = [e] ∧ consecPairs (createMonthList s e k) = [] := by
  have h1 := createMonthList_of_not_lt s e k h
  rw [h1]
  exact ⟨rfl, rfl⟩

/-- C6 witness: a degenerate window with equal endpoints. -/
theorem createMonthList_degenerate_range_witness :
    (¬ mkDate 2020 5 1 < mkDate 2020 5 1) ∧
    (createMonthList (mkDate 2020 5 1) (mkDate 2020 5 1) 3 = [mkDate 2020 5 1] ∧
      consecPairs (createMonthList (mkDate 2020 5 1) (mkDate 2020 5 1) 3) = []) :=
  ⟨by decide, createMonthList_degenerate_range (mkDate 2020 5 1) (mkDate 2020 5 1) 3
    (by decide)⟩

theorem findFreeFrom_succ (path_exists_v : Nat → Bool) (fuel v : Nat) :
    findFreeFrom path_exists_v (Nat.succ fuel) v =
      if path_exists_v v then findFreeFrom path_exists_v fuel (v + 1) else v := rfl

theorem findFreeFrom_spec (path_exists_v : Nat → Bool) :
    ∀ (fuel v b : Nat), v ≤ b → b < v + fuel → path_exists_v b = false →
      path_exists_v (findFreeFrom path_exists_v fuel v) = false ∧
      v ≤ findFreeFrom path_exists_v fuel v ∧
      ∀ m, v ≤ m → m < findFreeFrom path_exists_v fuel v → path_exists_v m = true := by
  intro fuel
  induction fuel with
  | zero => intro v b hvb hlt _; omega
  | succ fuel ih =>
    intro v b hvb hlt hb
    by_cases hv : path_exists_v v = true
    · have hrw : findFreeFrom path_exists_v (Nat.succ fuel) v =
          findFreeFrom path_exists_v fuel (v + 1) := by
        rw [findFreeFrom_succ, if_pos hv]
      have hvb' : v + 1 ≤ b := by
        rcases Nat.lt_or_ge v b with hlt' | hge
        · omega
        · have hvb2 : v = b := by omega
          rw [hvb2, hb] at hv
          exact absurd hv (by simp)
      obtain ⟨h1, h2, h3⟩ := ih (v + 1) b hvb' (by omega) hb
      rw [hrw]
      refine ⟨h1, by omega, ?_⟩
      intro m hm1 hm2
      rcases Nat.eq_or_lt_of_le hm1 with hm | hm
      · rw [← hm]; exact hv
      · exact h3 m hm hm2
    · have hvf : path_exists_v v = false := by
        revert hv; cases path_exists_v v <;> simp
      have hrw : findFreeFrom path_exists_v (Nat.succ fuel) v = v := by
        rw [findFreeFrom_succ, if_neg hv]
      rw [hrw]
      exact ⟨hvf, Nat.le_refl _, fun m hm1 hm2 => by omega⟩

/-- C8: given some version `bound` whose path does not exist (the loop
would not terminate otherwise), `get_new_temp_dir` returns
`{base_dir}_v{N}` for the smallest `N` whose path does not exist: the
returned path is fresh and every smaller version's path exists. -/
theorem get_new_temp_dir_fresh_least (path_exists : String → Bool) (base_dir : String)
    (bound : Nat) (hb : path_exists (base_dir ++ "_v" ++ toString bound) = false) :
    ∃ N : Nat,
      get_new_temp_dir path_exists base_dir bound = base_dir ++ "_v" ++ toString N ∧
      path_exists (base_dir ++ "_v" ++ toString N) = false ∧
      ∀ m : Nat, m < N → path_exists (base_dir ++ "_v" ++ toString m) = true := by
  obtain ⟨h1, _, h3⟩ := findFreeFrom_spec
    (fun v => path_exists (base_dir ++ "_v" ++ toString v)) (bound + 1) 0 bound
    (Nat.zero_le _) (by omega) hb
  exact ⟨_, rfl, h1, fun m hm => h3 m (Nat.zero_le m) hm⟩

/-- C8 witness: with paths `tmp_v0` and `tmp_v1` existing and `tmp_v2`
free, the returned directory is `tmp_v2` and versions 0 and 1 exist. -/
theorem get_new_temp_dir_fresh_least_witness :
    ((fun s => decide (s = ("tmp_v0")) || decide (s = ("tmp_v1")))
        (("tmp") ++ "_v" ++ toString 2) = false) ∧
    ∃ N : Nat,
      get_new_temp_dir (fun s => decide (s = ("tmp_v0")) || decide (s = ("tmp_v1")))
          ("tmp") 2 = ("tmp") ++ "_v" ++ toString N ∧
      (fun s => decide (s = ("tmp_v0")) || decide (s = ("tmp_v1")))
          (("tmp") ++ "_v" ++ toString N) = false ∧
      ∀ m : Nat, m < N →
        (fun s => decide (s = ("tmp_v0")) || decide (s = ("tmp_v1")))
          (("tmp") ++ "_v" ++ toString m) = true :=
  ⟨by decide,
    get_new_temp_dir_fresh_least
      (fun s => decide (s = ("tmp_v0")) || decide (s = ("tmp_v1"))) ("tmp") 2
      (by decide)⟩

/-- C10: the date ranges produced by `createJobsByTimeDelta` come only from
the module-level constants `GLOBAL_START_DATE = 2019-10-01` and
`GLOBAL_END_DATE = 2025-02-01` and the step: two calls with the same step
and the same directory count, but different repository paths (and even
different directory names), produce identical date-range assignments. -/
theorem createJobsByTimeDelta_global_window
    (path_exists1 path_exists2 : String → Bool) (repoPath1 repoPath2 : String)
    (timeDelta : Nat) (dirs1 dirs2 : List String)
    (h1 : path_exists1 repoPath1 = true) (h2 : path_exists2 repoPath2 = true)
    (hlen : dirs1.length = dirs2.length) :
    GLOBAL_START_DATE = mkDate 2019 10 1 ∧ GLOBAL_END_DATE = mkDate 2025 2 1 ∧
    (createJobsByTimeDelta path_exists1 repoPath1 timeDelta dirs1).map
        (fun jobs => jobs.map (fun j => j.dateRanges)) =
      (createJobsByTimeDelta path_exists2 repoPath2 timeDelta dirs2).map
        (fun jobs => jobs.map (fun j => j.dateRanges)) := by
  refine ⟨rfl, rfl, ?_⟩
  unfold createJobsByTimeDelta
  rw [if_pos h1, if_pos h2]
  unfold partitionJobs
  rw [hlen]
  cases hsplit : array_split
      (consecPairs (createMonthList GLOBAL_START_DATE GLOBAL_END_DATE timeDelta))
      dirs2.length with
  | error e => rfl
  | ok chunks =>
    simp only [Except.map, List.map_map]
    rfl

/-- C10 witness: same step, same directory count, different repository
paths and directory names give the same date ranges. -/
theorem createJobsByTimeDelta_global_window_witness :
    GLOBAL_START_DATE = mkDate 2019 10 1 ∧ GLOBAL_END_DATE = mkDate 2025 2 1 ∧
    (createJobsByTimeDelta (fun _ => true) ("repoA") 1 [("x")]).map
        (fun jobs => jobs.map (fun j => j.dateRanges)) =
      (createJobsByTimeDelta (fun _ => true) ("repoB") 1 [("y")]).map
        (fun jobs => jobs.map (fun j => j.dateRanges)) :=
  createJobsByTimeDelta_global_window (fun _ => true) (fun _ => true)
    ("repoA") ("repoB") 1 [("x")] [("y")] rfl rfl rfl

theorem takeChunks_length {α : Type} :
    ∀ (ss : List Nat) (xs : List α), (takeChunks ss xs).length = ss.length := by
  intro ss
  induction ss with
  | nil => intro xs; rfl
  | cons s ss ih =>
    intro xs
    simp only [takeChunks, List.length_cons]
    rw [ih (xs.drop s)]

theorem takeChunks_join {α : Type} :
    ∀ (ss : List Nat) (xs : List α), (takeChunks ss xs).flatten = xs.take ss.sum := by
  intro ss
  induction ss with
  | nil => intro xs; simp [takeChunks]
  | cons s ss ih =>
    intro xs
    simp only [takeChunks, List.flatten_cons, List.sum_cons]
    rw [ih (xs.drop s), List.take_add]

theorem takeChunks_sizes {α : Type} :
    ∀ (ss : List Nat) (xs : List α), ss.sum ≤ xs.length →
      ∀ c ∈ takeChunks ss xs, ∃ s ∈ ss, c.length = s := by
  intro ss
  induction ss with
  | nil => intro xs _ c hc; simp [takeChunks] at hc
  | cons s ss ih =>
    intro xs hsum c hc
    simp only [List.sum_cons] at hsum
    simp only [takeChunks, List.mem_cons] at hc
    rcases hc with hc | hc
    · refine ⟨s, List.mem_cons_self _ _, ?_⟩
      rw [hc, List.length_take]
      omega
    · have hsum' : ss.sum ≤ (xs.drop s).length := by
        rw [List.length_drop]
        omega
      obtain ⟨t, ht, hlen⟩ := ih (xs.drop s) hsum' c hc
      exact ⟨t, List.mem_cons_of_mem _ ht, hlen⟩

theorem takeChunks_mem_nil {α : Type} :
    ∀ (ss : List Nat) (xs : List α), 0 ∈ ss → ∃ c ∈ takeChunks ss xs, c = [] := by
  intro ss
  induction ss with
  | nil => intro xs h; simp at h
  | cons s ss ih =>
    intro xs h
    rcases List.mem_cons.mp h with h0 | h0
    · refine ⟨xs.take s, List.mem_cons_self _ _, ?_⟩
      rw [← h0]
      rfl
    · obtain ⟨c, hc, hnil⟩ := ih (xs.drop s) h0
      exact ⟨c, List.mem_cons_of_mem _ hc, hnil⟩

theorem splitSizes_length (l n : Nat) (hn : n ≠ 0) : (splitSizes l n).length = n := by
  have hmod := Nat.mod_lt l (Nat.pos_of_ne_zero hn)
  simp only [splitSizes, List.length_append, List.length_replicate]
  omega

theorem splitSizes_sum (l n : Nat) (hn : n ≠ 0) : (splitSizes l n).sum = l := by
  have hmod := Nat.mod_lt l (Nat.pos_of_ne_zero hn)
  have hdm : n * (l / n) + l % n = l := Nat.div_add_mod l n
  simp only [splitSizes, List.sum_append, List.sum_replicate, smul_eq_mul]
  have h1 : l % n * (l / n + 1) = l % n * (l / n) + l % n := by ring
  have h2 : (n - l % n) * (l / n) = n * (l / n) - l % n * (l / n) :=
    Nat.sub_mul n (l % n) (l / n)
  have h3 : l % n * (l / n) ≤ n * (l / n) :=
    Nat.mul_le_mul_right (l / n) (Nat.le_of_lt hmod)
  omega

theorem splitSizes_mem (l n : Nat) :
    ∀ s ∈ splitSizes l n, s = l / n ∨ s = l / n + 1 := by
  intro s hs
  simp only [splitSizes, List.mem_append, List.mem_replicate] at hs
  rcases hs with hs | hs
  · right; exact hs.2
  · left; exact hs.2

theorem splitSizes_zero_mem (l n : Nat) (h : l < n) : 0 ∈ splitSizes l n := by
  have hmod : l % n = l := Nat.mod_eq_of_lt h
  have hdiv : l / n = 0 := Nat.div_eq_of_lt h
  simp only [splitSizes, List.mem_append, List.mem_replicate]
  right
  omega

theorem range_map_getD {α : Type} :
    ∀ (l : List α) (d : α), (List.range l.length).map (fun i => l.getD i d) = l := by
  intro l
  induction l with
  | nil => intro d; rfl
  | cons a t ih =>
    intro d
    rw [List.length_cons, List.range_succ_eq_map]
    simp only [List.map_cons, List.map_map]
    have hcomp :
        ((fun i => (a :: t).getD i d) ∘ Nat.succ) = (fun i => t.getD i d) := rfl
    rw [hcomp, ih d]
    rfl

/-- C4: for a non-empty snapshot (directory) list, `partitionJobs` yields
one job per directory; concatenating the jobs' interval lists in job order
gives back the input interval sequence (so each interval lands in exactly
one job, contiguously and in the original order); job ids are `0..n-1` and
job `i` runs on directory `i`; chunks are near-equal (every job holds
`len/n` or `len/n + 1` intervals); and with fewer intervals than
directories some job receives an empty interval list. -/
theorem partitionJobs_properties (monthPairs : List (Date × Date))
    (directories : List String) (hd : directories ≠ []) :
    ∃ jobs, partitionJobs monthPairs directories = Except.ok jobs ∧
      jobs.length = directories.length ∧
      (jobs.map (fun j => j.dateRanges)).flatten = monthPairs ∧
      jobs.map (fun j => j.id) = List.range directories.length ∧
      jobs.map (fun j => j.directory) = directories ∧
      (∀ j ∈ jobs,
        j.dateRanges.length = monthPairs.length / directories.length ∨
        j.dateRanges.length = monthPairs.length / directories.length + 1) ∧
      (monthPairs.length < directories.length → ∃ j ∈ jobs, j.dateRanges = []) := by
  have hn : directories.length ≠ 0 := by
    intro h0
    exact hd (List.eq_nil_of_length_eq_zero h0)
  have hchunks_len :
      (takeChunks (splitSizes monthPairs.length directories.length) monthPairs).length =
        directories.length := by
    rw [takeChunks_length, splitSizes_length _ _ hn]
  have hsum :
      (splitSizes monthPairs.length directories.length).sum = monthPairs.length :=
    splitSizes_sum _ _ hn
  have hjobs :
      partitionJobs monthPairs directories = Except.ok
        (((List.range directories.length).zip
            (takeChunks (splitSizes monthPairs.length directories.length) monthPairs)).map
          (fun p => ⟨p.1, p.2, directories.getD p.1 ("")⟩)) := by
    unfold partitionJobs array_split
    rw [if_neg hn]
    rfl
  refine ⟨_, hjobs, ?_, ?_, ?_, ?_, ?_, ?_⟩
  · rw [List.length_map, List.length_zip, List.length_range, hchunks_len]
    omega
  · rw [List.map_map]
    have hcomp : ((fun j => j.dateRanges) ∘
        (fun (p : Nat × List (Date × Date)) =>
          (⟨p.1, p.2, directories.getD p.1 ("")⟩ : Job))) = Prod.snd := rfl
    rw [hcomp, List.map_snd_zip _ _ (by rw [List.length_range, hchunks_len])]
    rw [takeChunks_join, hsum, List.take_length]
  · rw [List.map_map]
    have hcomp : ((fun j => j.id) ∘
        (fun (p : Nat × List (Date × Date)) =>
          (⟨p.1, p.2, directories.getD p.1 ("")⟩ : Job))) = Prod.fst := rfl
    rw [hcomp, List.map_fst_zip _ _ (by rw [List.length_range, hchunks_len])]
  · rw [List.map_map]
    have hcomp : ((fun j => j.directory) ∘
        (fun (p : Nat × List (Date × Date)) =>
          (⟨p.1, p.2, directories.getD p.1 ("")⟩ : Job))) =
        ((fun i => directories.getD i ("")) ∘ Prod.fst) := rfl
    rw [hcomp, ← List.map_map]
    rw [List.map_fst_zip _ _ (by rw [List.length_range, hchunks_len])]
    exact range_map_getD directories ("")
  · intro j hj
    rcases List.mem_map.mp hj with ⟨p, hp, hpj⟩
    have hchunk : j.dateRanges = p.2 := by rw [← hpj]
    have hp2 : p.2 ∈ takeChunks (splitSizes monthPairs.length directories.length)
        monthPairs := (List.of_mem_zip hp).2
    obtain ⟨s, hs, hlen⟩ := takeChunks_sizes _ _ (le_of_eq hsum) p.2 hp2
    rcases splitSizes_mem _ _ s hs with h | h
    · left; rw [hchunk, hlen, h]
    · right; rw [hchunk, hlen, h]
  · intro hlt
    obtain ⟨c, hc, hcnil⟩ := takeChunks_mem_nil _ monthPairs
      (splitSizes_zero_mem _ _ hlt)
    have hmap : c ∈ (((List.range directories.length).zip
        (takeChunks (splitSizes monthPairs.length directories.length) monthPairs)).map
          (fun p => (⟨p.1, p.2, directories.getD p.1 ("")⟩ : Job))).map
        (fun j => j.dateRanges) := by
      rw [List.map_map]
      have hcomp : ((fun j => j.dateRanges) ∘
          (fun (p : Nat × List (Date × Date)) =>
            (⟨p.1, p.2, directories.getD p.1 ("")⟩ : Job))) = Prod.snd := rfl
      rw [hcomp, List.map_snd_zip _ _ (by rw [List.length_range, hchunks_len])]
      exact hc
    rcases List.mem_map.mp hmap with ⟨j, hj, hjc⟩
    exact ⟨j, hj, by rw [hjc]; exact hcnil⟩

/-- C4 witness: three intervals over two directories give chunk sizes 2 and
1 with ids 0, 1 and the original interval order preserved. -/
theorem partitionJobs_properties_witness :
    ([("d0"), ("d1")] : List String) ≠ [] ∧
    ∃ jobs, partitionJobs
        [(mkDate 2020 1 1, mkDate 2020 2 1), (mkDate 2020 2 1, mkDate 2020 3 1),
          (mkDate 2020 3 1, mkDate 2020 4 1)] [("d0"), ("d1")] = Except.ok jobs ∧
      jobs.length = ([("d0"), ("d1")] : List String).length ∧
      (jobs.map (fun j => j.dateRanges)).flatten =
        [(mkDate 2020 1 1, mkDate 2020 2 1), (mkDate 2020 2 1, mkDate 2020 3 1),
          (mkDate 2020 3 1, mkDate 2020 4 1)] := by
  refine ⟨by simp, ?_⟩
  obtain ⟨jobs, h1, h2, h3, _⟩ := partitionJobs_properties
    [(mkDate 2020 1 1, mkDate 2020 2 1), (mkDate 2020 2 1, mkDate 2020 3 1),
      (mkDate 2020 3 1, mkDate 2020 4 1)] [("d0"), ("d1")] (by simp)
  exact ⟨jobs, h1, h2, h3⟩

theorem createMultipleRepos_length (tempDir : String) (n : Nat) :
    (createMultipleRepos tempDir n).length = n := by
  simp [createMultipleRepos]

/-- C7 amended: the run checks only the upper bound
`numDirectories <= cpu_count() - 1` (an assertion raised before
provisioning).  A non-positive worker count passes that check, provisioning
is reached, and the run fails only later with `np.array_split`'s
`ValueError` during job partitioning; a count within both bounds
succeeds. -/
theorem codeChurnPerDelta_capacity (path_exists : String → Bool) (repoPath : String)
    (numDirectories cpuCount : Int) (timeDelta : Nat) (tempDir : String) :
    (¬ numDirectories ≤ cpuCount - 1 →
      codeChurnPerDelta path_exists repoPath numDirectories cpuCount timeDelta tempDir =
        (false, Except.error RunError.assertCapacity)) ∧
    (numDirectories ≤ 0 → numDirectories ≤ cpuCount - 1 →
      path_exists repoPath = true →
      codeChurnPerDelta path_exists repoPath numDirectories cpuCount timeDelta tempDir =
        (true, Except.error RunError.valueErrorSections)) ∧
    (0 < numDirectories → numDirectories ≤ cpuCount - 1 →
      path_exists repoPath = true →
      ∃ jobs,
        codeChurnPerDelta path_exists repoPath numDirectories cpuCount timeDelta tempDir =
          (true, Except.ok jobs)) := by
  refine ⟨?_, ?_, ?_⟩
  · intro h
    unfold codeChurnPerDelta
    rw [if_neg h]
  · intro h1 h2 h3
    have htn : numDirectories.toNat = 0 := by omega
    unfold codeChurnPerDelta
    rw [if_pos h2, htn]
    unfold createJobsByTimeDelta
    rw [if_pos h3]
    rfl
  · intro h1 h2 h3
    have htn : numDirectories.toNat ≠ 0 := by omega
    apply Exists.intro
    unfold codeChurnPerDelta
    rw [if_pos h2]
    unfold createJobsByTimeDelta
    rw [if_pos h3]
    unfold partitionJobs array_split
    rw [if_neg (by rw [createMultipleRepos_length]; exact htn)]
    rfl

/-- C7 counterexample: a requested worker count of 0 with 8 CPUs violates
the claimed lower bound `0 < count`, yet the capacity assertion passes,
provisioning is reached (first component `true`), and the eventual failure
is `np.array_split`'s `ValueError`, not a capacity error raised before
provisioning. -/
theorem codeChurnPerDelta_capacity_cx :
    codeChurnPerDelta (fun _ => true) ("r") 0 8 1 ("t") =
      (true, Except.error RunError.valueErrorSections) ∧
    codeChurnPerDelta (fun _ => true) ("r") 0 8 1 ("t") ≠
      (false, Except.error RunError.assertCapacity) := by
  constructor
  · rfl
  · intro h
    have hfst : (true : Bool) = false := congrArg Prod.fst h
    exact Bool.noConfusion hfst

/-- C7 witness: the three capacity regimes at concrete counts 9, -2 and 2
with 8 CPUs. -/
theorem codeChurnPerDelta_capacity_witness :
    codeChurnPerDelta (fun _ => true) ("r") 9 8 1 ("t") =
      (false, Except.error RunError.assertCapacity) ∧
    codeChurnPerDelta (fun _ => true) ("r") (-2) 8 1 ("t") =
      (true, Except.error RunError.valueErrorSections) ∧
    ∃ jobs, codeChurnPerDelta (fun _ => true) ("r") 2 8 1 ("t") =
      (true, Except.ok jobs) :=
  ⟨(codeChurnPerDelta_capacity (fun _ => true) ("r") 9 8 1 ("t")).1 (by decide),
   (codeChurnPerDelta_capacity (fun _ => true) ("r") (-2) 8 1 ("t")).2.1
     (by decide) (by decide) rfl,
   (codeChurnPerDelta_capacity (fun _ => true) ("r") 2 8 1 ("t")).2.2
     (by decide) (by decide) rfl⟩

/-- C5: the worker emits exactly one result per assigned interval, in the
job's interval order; each result's counts are the sums over exactly that
interval's commits (per interval, never cumulative across intervals);
churn equals insertions + deletions exactly; and an interval whose window
holds no commits yields the all-zero result rather than an error. -/
theorem codeChurnJob_results (reader : String → Date → Date → List Commit) (job : Job) :
    (codeChurnJob reader job).1 = job.id ∧
    (codeChurnJob reader job).2.1 = job.directory ∧
    (codeChurnJob reader job).2.2.length = job.dateRanges.length ∧
    (∀ (i : Nat) (h : i < (codeChurnJob reader job).2.2.length)
      (h2 : i < job.dateRanges.length),
      (codeChurnJob reader job).2.2.get ⟨i, h⟩ =
        ⟨job.id, job.directory,
          (job.dateRanges.get ⟨i, h2⟩).1, (job.dateRanges.get ⟨i, h2⟩).2,
          ((reader job.directory (job.dateRanges.get ⟨i, h2⟩).1
            (job.dateRanges.get ⟨i, h2⟩).2).map Commit.insertions).sum,
          ((reader job.directory (job.dateRanges.get ⟨i, h2⟩).1
            (job.dateRanges.get ⟨i, h2⟩).2).map Commit.deletions).sum,
          ((reader job.directory (job.dateRanges.get ⟨i, h2⟩).1
            (job.dateRanges.get ⟨i, h2⟩).2).map Commit.insertions).sum +
            ((reader job.directory (job.dateRanges.get ⟨i, h2⟩).1
              (job.dateRanges.get ⟨i, h2⟩).2).map Commit.deletions).sum⟩) ∧
    (∀ r ∈ (codeChurnJob reader job).2.2, r.churn = r.insertions + r.deletions) ∧
    (∀ (i : Nat) (h : i < (codeChurnJob reader job).2.2.length)
      (h2 : i < job.dateRanges.length),
      reader job.directory (job.dateRanges.get ⟨i, h2⟩).1
          (job.dateRanges.get ⟨i, h2⟩).2 = [] →
      (codeChurnJob reader job).2.2.get ⟨i, h⟩ =
        ⟨job.id, job.directory,
          (job.dateRanges.get ⟨i, h2⟩).1, (job.dateRanges.get ⟨i, h2⟩).2, 0, 0, 0⟩) := by
  have hget : ∀ (i : Nat) (h : i < (codeChurnJob reader job).2.2.length)
      (h2 : i < job.dateRanges.length),
      (codeChurnJob reader job).2.2.get ⟨i, h⟩ =
        ⟨job.id, job.directory,
          (job.dateRanges.get ⟨i, h2⟩).1, (job.dateRanges.get ⟨i, h2⟩).2,
          ((reader job.directory (job.dateRanges.get ⟨i, h2⟩).1
            (job.dateRanges.get ⟨i, h2⟩).2).map Commit.insertions).sum,
          ((reader job.directory (job.dateRanges.get ⟨i, h2⟩).1
            (job.dateRanges.get ⟨i, h2⟩).2).map Commit.deletions).sum,
          ((reader job.directory (job.dateRanges.get ⟨i, h2⟩).1
            (job.dateRanges.get ⟨i, h2⟩).2).map Commit.insertions).sum +
            ((reader job.directory (job.dateRanges.get ⟨i, h2⟩).1
              (job.dateRanges.get ⟨i, h2⟩).2).map Commit.deletions).sum⟩ := by
    intro i h h2
    simp only [codeChurnJob, List.get_eq_getElem, List.getElem_map]
  refine ⟨rfl, rfl, by simp [codeChurnJob], hget, ?_, ?_⟩
  · intro r hr
    rcases List.mem_map.mp hr with ⟨p, _, hpr⟩
    rw [← hpr]
  · intro i h h2 hempty
    rw [hget i h h2, hempty]
    rfl

/-- C5 witness: a reader with no commits in the window yields the all-zero
result for the single interval of `jobC5`. -/
theorem codeChurnJob_results_witness :
    (codeChurnJob (fun _ _ _ => []) jobC5).2.2.get ⟨0, by decide⟩ =
      ⟨0, ("w0"), mkDate 2020 1 1, mkDate 2020 2 1, 0, 0, 0⟩ :=
  (codeChurnJob_results (fun _ _ _ => []) jobC5).2.2.2.2.2 0 (by decide) (by decide) rfl

/-- C3 amended: if any worker's history read fails, `pool.map` surfaces a
single exception — the failure is never silently dropped, but the run's
return value is that lone error: no aggregate failure list and no sibling
worker's results are returned. -/
theorem poolMapJobs_error_of_failure
    (readerE : String → Date → Date → Except String (List Commit))
    (jobs : List Job) (j : Job) (e : String)
    (hj : j ∈ jobs) (hfail : codeChurnJobE readerE j = Except.error e) :
    ∃ e2, poolMapJobs readerE jobs = Except.error e2 := by
  unfold poolMapJobs
  induction jobs with
  | nil => cases hj
  | cons a t ih =>
    rw [List.mapM_cons]
    rcases List.mem_cons.mp hj with rfl | hmem
    · rw [hfail]
      exact ⟨e, rfl⟩
    · cases hx : codeChurnJobE readerE a with
      | error e3 => exact ⟨e3, rfl⟩
      | ok b =>
        obtain ⟨e2, h2⟩ := ih hmem
        exact ⟨e2, by rw [h2]; rfl⟩

/-- C3 witness: worker 0's failing read makes the whole pool call raise. -/
theorem poolMapJobs_error_of_failure_witness :
    ∃ e2, poolMapJobs readerC3a jobsC3 = Except.error e2 :=
  poolMapJobs_error_of_failure readerC3a jobsC3 jobC3a ("read failed")
    (by decide) rfl

/-- C3 counterexample: worker 0 fails and worker 1 succeeds.  Under two
readers that give worker 1 different commits (so different sibling
results), `pool.map` returns the same single exception: the successful
sibling's results are discarded and no aggregate error listing failures
alongside partial results is produced, contradicting the claim. -/
theorem poolMapJobs_partial_failure_cx :
    poolMapJobs readerC3a jobsC3 = Except.error ("read failed") ∧
    poolMapJobs readerC3b jobsC3 = Except.error ("read failed") ∧
    codeChurnJobE readerC3a jobC3b =
      Except.ok (1, ("d1"),
        [⟨1, ("d1"), mkDate 2020 1 1, mkDate 2020 2 1, 10, 2, 12⟩]) ∧
    codeChurnJobE readerC3b jobC3b =
      Except.ok (1, ("d1"),
        [⟨1, ("d1"), mkDate 2020 1 1, mkDate 2020 2 1, 100, 50, 150⟩]) :=
  ⟨rfl, rfl, rfl, rfl⟩

/-- C1: the aggregation groups all results jointly by the calendar month of
their `startDate`, emits one entry per occurring month whose value is the
arithmetic mean of that month's churn samples, sorts the series strictly
ascending by month key, and emits nothing for a month without samples. -/
theorem aggregate_monthly_mean_series (allResults : List IntervalResult) :
    ((aggregate allResults).map Prod.fst).Sorted (· < ·) ∧
    (∀ m : Nat, (∃ q, (m, q) ∈ aggregate allResults) ↔
      ∃ r ∈ allResults, monthKey r.startDate = m) ∧
    (∀ (m : Nat) (q : ℚ), (m, q) ∈ aggregate allResults →
      q = (((allResults.filter (fun r => decide (monthKey r.startDate = m))).map
            (fun r => (r.churn : ℚ))).sum) /
          (((allResults.filter (fun r => decide (monthKey r.startDate = m))).length : ℚ))) := by
  have hagg : aggregate allResults =
      (List.insertionSort (· ≤ ·)
        ((allResults.map (fun r => monthKey r.startDate)).dedup)).map
      (fun month =>
        (month,
          (((allResults.filter (fun r => decide (monthKey r.startDate = month))).map
            (fun r => (r.churn : ℚ))).sum) /
          (((allResults.filter
            (fun r => decide (monthKey r.startDate = month))).length : ℚ)))) := rfl
  refine ⟨?_, ?_, ?_⟩
  · rw [hagg, List.map_map]
    have hcomp : (Prod.fst ∘
        (fun month : Nat =>
          (month,
            (((allResults.filter (fun r => decide (monthKey r.startDate = month))).map
              (fun r => (r.churn : ℚ))).sum) /
            (((allResults.filter
              (fun r => decide (monthKey r.startDate = month))).length : ℚ))))) =
        (id : Nat → Nat) := rfl
    rw [hcomp, List.map_id]
    have hsorted := List.sorted_insertionSort (· ≤ ·)
      ((allResults.map (fun r => monthKey r.startDate)).dedup)
    have hperm := List.perm_insertionSort (· ≤ ·)
      ((allResults.map (fun r => monthKey r.startDate)).dedup)
    have hnodup : (List.insertionSort (· ≤ ·)
        ((allResults.map (fun r => monthKey r.startDate)).dedup)).Nodup :=
      hperm.nodup_iff.mpr (List.nodup_dedup _)
    exact (List.Pairwise.and hsorted hnodup).imp
      (fun h => lt_of_le_of_ne h.1 h.2)
  · intro m
    constructor
    · rintro ⟨q, hq⟩
      rw [hagg] at hq
      rcases List.mem_map.mp hq with ⟨m2, hm2, heq⟩
      have hm : m2 = m := congrArg Prod.fst heq
      rw [hm] at hm2
      have hkeys : m ∈ (allResults.map (fun r => monthKey r.startDate)).dedup :=
        ((List.perm_insertionSort (· ≤ ·) _).mem_iff).mp hm2
      exact List.mem_map.mp (List.mem_dedup.mp hkeys)
    · rintro ⟨r, hr, hkey⟩
      have h1 : m ∈ allResults.map (fun r => monthKey r.startDate) :=
        List.mem_map.mpr ⟨r, hr, hkey⟩
      have h2 : m ∈ List.insertionSort (· ≤ ·)
          ((allResults.map (fun r => monthKey r.startDate)).dedup) :=
        ((List.perm_insertionSort (· ≤ ·) _).mem_iff).mpr (List.mem_dedup.mpr h1)
      apply Exists.intro
      rw [hagg]
      exact List.mem_map.mpr ⟨m, h2, rfl⟩
  · intro m q hq
    rw [hagg] at hq
    rcases List.mem_map.mp hq with ⟨m2, hm2, heq⟩
    have hm : m2 = m := congrArg Prod.fst heq
    have hval := congrArg Prod.snd heq
    rw [hm] at hval
    exact hval.symm

/-- C1 witness: with one January-2020 result, the month key of January 2020
appears in the series, via the grouping characterisation. -/
theorem aggregate_monthly_mean_series_witness :
    (∃ q, (monthKey (mkDate 2020 1 1), q) ∈ aggregate resultsC1) ↔
      ∃ r ∈ resultsC1, monthKey r.startDate = monthKey (mkDate 2020 1 1) :=
  (aggregate_monthly_mean_series resultsC1).2.1 (monthKey (mkDate 2020 1 1))

theorem filter_not_length {α : Type} (l : List α) (p : α → Bool) :
    (l.filter p).length + (l.filter (fun a => !(p a))).length = l.length := by
  induction l with
  | nil => rfl
  | cons a t ih =>
    cases hp : p a with
    | true =>
      have h1 : (a :: t).filter p = a :: t.filter p := by
        simp [List.filter_cons, hp]
      have h2 : (a :: t).filter (fun x => !(p x)) = t.filter (fun x => !(p x)) := by
        simp [List.filter_cons, hp]
      rw [h1, h2, List.length_cons, List.length_cons]
      omega
    | false =>
      have h1 : (a :: t).filter p = t.filter p := by
        simp [List.filter_cons, hp]
      have h2 : (a :: t).filter (fun x => !(p x)) = a :: t.filter (fun x => !(p x)) := by
        simp [List.filter_cons, hp]
      rw [h1, h2, List.length_cons, List.length_cons]
      omega

/-- C9: the summary partitions the (month, mean churn) series into the
entries strictly before the threshold month and the rest, reports the
arithmetic mean of each part, and reports 0 for an empty part. -/
theorem churnSummary_partition_means (months : List Nat) (avg_churn : List ℚ)
    (threshold_date : Nat) :
    (((months.zip avg_churn).filter (fun p => decide (p.1 < threshold_date))).length +
      ((months.zip avg_churn).filter (fun p => !decide (p.1 < threshold_date))).length =
      (months.zip avg_churn).length) ∧
    ((months.zip avg_churn).filter (fun p => decide (p.1 < threshold_date)) = [] →
      (churnSummary months avg_churn threshold_date).1 = 0) ∧
    ((months.zip avg_churn).filter (fun p => decide (p.1 < threshold_date)) ≠ [] →
      (churnSummary months avg_churn threshold_date).1 *
        ((((months.zip avg_churn).filter
          (fun p => decide (p.1 < threshold_date))).length : ℚ)) =
        (((months.zip avg_churn).filter
          (fun p => decide (p.1 < threshold_date))).map Prod.snd).sum) ∧
    ((months.zip avg_churn).filter (fun p => !decide (p.1 < threshold_date)) = [] →
      (churnSummary months avg_churn threshold_date).2 = 0) ∧
    ((months.zip avg_churn).filter (fun p => !decide (p.1 < threshold_date)) ≠ [] →
      (churnSummary months avg_churn threshold_date).2 *
        ((((months.zip avg_churn).filter
          (fun p => !decide (p.1 < threshold_date))).length : ℚ)) =
        (((months.zip avg_churn).filter
          (fun p => !decide (p.1 < threshold_date))).map Prod.snd).sum) := by
  refine ⟨filter_not_length _ _, ?_, ?_, ?_, ?_⟩
  · intro hnil
    have hlen0 : ((months.zip avg_churn).filter
        (fun p => decide (p.1 < threshold_date))).length = 0 := by
      rw [hnil]; rfl
    unfold churnSummary
    rw [if_pos hlen0]
  · intro hne
    have hlen : ((months.zip avg_churn).filter
        (fun p => decide (p.1 < threshold_date))).length ≠ 0 := by
      intro h0
      exact hne (List.eq_nil_of_length_eq_zero h0)
    have hq : ((((months.zip avg_churn).filter
        (fun p => decide (p.1 < threshold_date))).length : ℚ)) ≠ 0 := by
      exact_mod_cast hlen
    unfold churnSummary
    rw [if_neg hlen]
    exact div_mul_cancel₀ _ hq
  · intro hnil
    have hlen0 : ((months.zip avg_churn).filter
        (fun p => !decide (p.1 < threshold_date))).length = 0 := by
      rw [hnil]; rfl
    unfold churnSummary
    rw [if_pos hlen0]
  · intro hne
    have hlen : ((months.zip avg_churn).filter
        (fun p => !decide (p.1 < threshold_date))).length ≠ 0 := by
      intro h0
      exact hne (List.eq_nil_of_length_eq_zero h0)
    have hq : ((((months.zip avg_churn).filter
        (fun p => !decide (p.1 < threshold_date))).length : ℚ)) ≠ 0 := by
      exact_mod_cast hlen
    unfold churnSummary
    rw [if_neg hlen]
    exact div_mul_cancel₀ _ hq

/-- C9 witness: months 10 and 30 with means 2 and 4 and threshold 20; the
before-part mean times its size recovers its sum. -/
theorem churnSummary_partition_means_witness :
    ((([10, 30] : List Nat).zip [(2 : ℚ), 4]).filter
      (fun p => decide (p.1 < 20)) ≠ []) ∧
    (churnSummary [10, 30] [(2 : ℚ), 4] 20).1 *
      (((((([10, 30] : List Nat).zip [(2 : ℚ), 4]).filter
        (fun p => decide (p.1 < 20))).length : ℚ))) =
      (((([10, 30] : List Nat).zip [(2 : ℚ), 4]).filter
        (fun p => decide (p.1 < 20))).map Prod.snd).sum :=
  ⟨by decide,
    (churnSummary_partition_means [10, 30] [(2 : ℚ), 4] 20).2.2.1 (by decide)⟩

end AvgChurn
